import Mathlib

/-!
Verification of the camera frame-ingestion pipeline
(`src/hardware/camera_example1_callback_2/camera_example1_callback.c`).

The development shallowly embeds the data model and the per-callback
operations of the C program:

* `get_frame_size`   — byte-size computation (lines 130-143); `size_t`
  arithmetic is modelled as `Nat` reduced modulo `2 ^ 64` (64-bit `size_t`).
* `processPush`      — the ring-buffer store section of `processCameraData`
  (lines 358-389), with shared-memory open/truncate/map failures injected
  through a `ShmFail` record.  Per POSIX, `mmap` with length 0 fails with
  `EINVAL`; the model reflects this by treating a zero-size map as a failure.
* `get_latest_frame` — lines 145-154.
* `publishLatest`    — the latest-slot publication section (lines 391-411).
* `updateMetadata`   — the metadata record overwrite (lines 413-440).
* channel-average statistics — lines 512-586; the `double` accumulators are
  modelled exactly over `ℚ` (every byte value and every divisor in the code
  is a small integer, so the rational model is the exact value the code's
  real-number semantics denotes).
* `streamWrites` / `packRGB` / `streamGate` — the JPEG encode-and-stream
  section (lines 489-510).

Loop index arithmetic inside the statistics and packing loops is modelled
over `Nat`; the C program computes these indices in 32-bit unsigned
arithmetic, which coincides with `Nat` whenever the frame's byte offsets fit
in 32 bits (frames for which they do not already index memory incorrectly
and are outside every claim's scope).  The standalone pure function
`get_frame_size`, by contrast, is total and well defined for every
descriptor, so its 64-bit wrap-around is modelled faithfully.
-/

namespace Camera

/-- The `camera_frametype_t` tags the program handles; every tag other than
the four supported ones is collapsed into `other` carrying the raw value. -/
inductive Frametype
  | rgb8888
  | bgr8888
  | ycbycr
  | cbycry
  | other (tag : Nat)
deriving DecidableEq

/-- A delivered `camera_buffer_t`: frametype, the framedesc fields the
program reads (width, height, stride of the union member selected by the
frametype), and the raw bytes `framebuf` (reads outside the list are
modelled as 0). -/
structure CamBuf where
  frametype : Frametype
  width : Nat
  height : Nat
  stride : Nat
  framebuf : List Nat
deriving DecidableEq

/-- `get_frame_size` (lines 130-143): `(size_t)width * height * bpp` with
64-bit `size_t` arithmetic, 0 for an unrecognized frametype. -/
def get_frame_size (b : CamBuf) : Nat :=
  match b.frametype with
  | .rgb8888 => b.width * b.height * 4 % 2 ^ 64
  | .bgr8888 => b.width * b.height * 4 % 2 ^ 64
  | .ycbycr  => b.width * b.height * 2 % 2 ^ 64
  | .cbycry  => b.width * b.height * 2 % 2 ^ 64
  | .other _ => 0

/-- The bytes `memcpy(mapped_data, buffer->framebuf, size)` copies. -/
def cpBytes (b : CamBuf) : List Nat :=
  (List.range (get_frame_size b)).map (fun i => b.framebuf.getD i 0)

/-- One `Frame` record of the ring buffer (struct at lines 73-79; the
`shm_name` string, derived from the ring index, carries no frame content
and is omitted). -/
structure FrameRec where
  frametype : Frametype
  width : Nat
  height : Nat
  stride : Nat
  data : List Nat
  data_size : Nat
deriving DecidableEq

/-- The `Frame` record a successful push stores for buffer `b`
(lines 376-381). -/
def recOf (b : CamBuf) : FrameRec :=
  { frametype := b.frametype
    width := b.width
    height := b.height
    stride := b.stride
    data := cpBytes b
    data_size := get_frame_size b }

/-- Placeholder record for never-written ring slots. -/
def dfltRec : FrameRec := ⟨.other 0, 0, 0, 0, [], 0⟩

/-- Placeholder camera buffer (used only as a `getD` default). -/
def dfltBuf : CamBuf := ⟨.other 0, 0, 0, 0, []⟩

/-- The ring-buffer globals `frame_buffer`, `buffer_head`, `buffer_count`
(lines 88-91); `MAX_FRAMES = 5`. -/
structure StoreState where
  buf : Fin 5 → FrameRec
  head : Nat
  count : Nat

/-- Ring index reduction `% MAX_FRAMES`. -/
def idx5 (n : Nat) : Fin 5 := ⟨n % 5, Nat.mod_lt n (by omega)⟩

/-- Failure injection for one shared-memory publication attempt:
whether `shm_open`, `ftruncate`, `mmap` fail. -/
structure ShmFail where
  openFails : Bool
  truncFails : Bool
  mmapFails : Bool
deriving DecidableEq

/-- No injected failure. -/
def noFail : ShmFail := ⟨false, false, false⟩

/-- The eviction block of the push (lines 360-367): when the ring is full
the oldest frame is released, the head advances and the count drops. -/
def evictIfFull (st : StoreState) : StoreState :=
  if st.count = 5 then
    { st with head := (st.head + 1) % 5, count := st.count - 1 }
  else st

/-- The ring-buffer push section of `processCameraData` (lines 358-389):
evict if full, then `shm_open` / `ftruncate` / `mmap`; only when all three
succeed (a zero-length `mmap` fails per POSIX) is the frame recorded and
the count incremented. -/
def processPush (st : StoreState) (b : CamBuf) (f : ShmFail) : StoreState :=
  let size := get_frame_size b
  let st1 := evictIfFull st
  let i := idx5 (st1.head + st1.count)
  if f.openFails = true then st1
  else if f.truncFails = true then st1
  else if f.mmapFails = true ∨ size = 0 then st1
  else { st1 with buf := Function.update st1.buf i (recOf b), count := st1.count + 1 }

/-- `get_latest_frame` (lines 145-154). -/
def get_latest_frame (st : StoreState) : Option FrameRec :=
  if st.count = 0 then none
  else some (st.buf (idx5 (st.head + st.count - 1)))

/-- Empty initial store. -/
def initStore : StoreState := ⟨fun _ => dfltRec, 0, 0⟩

/-- Folding the success-path push over a list of delivered buffers. -/
def pushAll (fs : List CamBuf) : StoreState :=
  fs.foldl (fun st b => processPush st b noFail) initStore

/-- The process-local view of `latest_mapped`: `null`, a non-null invalid
value (dangling after `munmap`, or `MAP_FAILED`), or a valid mapping. -/
inductive LatestPtr
  | null
  | stale
  | good
deriving DecidableEq

/-- State of the latest-frame publication channel: the contents of the
`/camera_latest` segment (`none` when unlinked/never created) plus the
process-local `latest_mapped` / `latest_size` globals (lines 96-98). -/
structure LatestState where
  slot : Option (List Nat)
  ptr : LatestPtr
  size : Nat
deriving DecidableEq

/-- `ftruncate` semantics on segment contents: shrink or zero-extend to
length `n`. -/
def truncTo (l : List Nat) (n : Nat) : List Nat :=
  (List.range n).map (fun i => l.getD i 0)

/-- Initial latest-slot state (no segment, `latest_mapped == NULL`). -/
def initLatest : LatestState := ⟨none, .null, 0⟩

/-- The latest-slot publication section of `processCameraData`
(lines 391-411).  When `latest_mapped` is non-null the previous segment is
unconditionally unmapped and unlinked first; then `shm_open(O_CREAT)`
(re)creates the segment, `ftruncate` resizes it, and only a successful
`mmap` (again failing for length 0) copies the new bytes in.  A failed
`mmap` leaves `latest_mapped = MAP_FAILED`, a non-null invalid pointer. -/
def publishLatest (st : LatestState) (b : CamBuf) (f : ShmFail) : LatestState :=
  let size := get_frame_size b
  let st1 := if st.ptr ≠ LatestPtr.null then { st with slot := none, ptr := LatestPtr.stale } else st
  if f.openFails = true then st1
  else
    let slot1 := st1.slot.getD []
    if f.truncFails = true then { st1 with slot := some slot1 }
    else
      let slot2 := truncTo slot1 size
      if f.mmapFails = true ∨ size = 0 then { st1 with slot := some slot2, ptr := LatestPtr.stale }
      else { slot := some (cpBytes b), ptr := LatestPtr.good, size := size }

/-- The shared metadata record (struct at lines 81-86). -/
structure Metadata where
  frametype : Frametype
  width : Nat
  height : Nat
  size : Nat
deriving DecidableEq

/-- The width/height decode switch of the metadata section (lines 414-436):
the selected union member's dimensions, or zeros for an unrecognized tag. -/
def decodeWH (b : CamBuf) : Nat × Nat :=
  match b.frametype with
  | .other _ => (0, 0)
  | _ => (b.width, b.height)

/-- The metadata overwrite (lines 437-440): performed unconditionally on
every callback. -/
def updateMetadata (b : CamBuf) : Metadata :=
  { frametype := b.frametype
    width := (decodeWH b).1
    height := (decodeWH b).2
    size := get_frame_size b }

/-- The width/height/stride decode switch ahead of the streaming and
statistics sections (lines 460-487). -/
def decodeDims (b : CamBuf) : Nat × Nat × Nat :=
  match b.frametype with
  | .other _ => (0, 0, 0)
  | _ => (b.width, b.height, b.stride)

/-! ### Statistics (channel averages, lines 512-593)

Each `channelAverage[chan]` is a `double` accumulator summing byte values
and finally divided by an integer divisor; both are modelled exactly in
`ℚ`.  Each per-layout sum is written exactly in the shape of the code's
loop: the outer loop walks rows through the stride, the inner loop walks
byte index `i` below `4*width` (resp. `2*width`) and the filter is the
code's channel-classification arithmetic on `i`. -/

/-- RGB8888 channel sum (lines 515-527): byte `i` of a row belongs to
channel `i % 4`, channel 3 is skipped. -/
def rgbChanSum (buf : List Nat) (w h stride c : Nat) : ℚ :=
  ∑ y ∈ Finset.range h,
    ∑ i ∈ (Finset.range (4 * w)).filter (fun i => i % 4 = c),
      (buf.getD (y * stride + i) 0 : ℚ)

/-- RGB8888 channel average: divisor `width * height` (line 529). -/
def rgbAvg (buf : List Nat) (w h stride c : Nat) : ℚ :=
  rgbChanSum buf w h stride c / ((w * h : Nat) : ℚ)

/-- BGR8888 channel sum (lines 533-545): byte `i` with `i % 4 = 3` is
skipped, otherwise it belongs to channel `(4*width - i + 3) % 4 - 1`. -/
def bgrChanSum (buf : List Nat) (w h stride c : Nat) : ℚ :=
  ∑ y ∈ Finset.range h,
    ∑ i ∈ (Finset.range (4 * w)).filter
        (fun i => i % 4 ≠ 3 ∧ (4 * w - i + 3) % 4 - 1 = c),
      (buf.getD (y * stride + i) 0 : ℚ)

/-- BGR8888 channel average: divisor `width * height` (line 547). -/
def bgrAvg (buf : List Nat) (w h stride c : Nat) : ℚ :=
  bgrChanSum buf w h stride c / ((w * h : Nat) : ℚ)

/-- YCBYCR channel classification (lines 557-560): `chan = i % 2`, and if
that is 1, `chan = (i-1) % 4 / 2 + 1`. -/
def ycbycrChan (i : Nat) : Nat :=
  if i % 2 = 1 then (i - 1) % 4 / 2 + 1 else i % 2

/-- CBYCRY channel classification (lines 575-578): `chan = (i+1) % 2`, and
if that is 1, `chan = ((i+1) % 4 + 1) / 2`. -/
def cbycryChan (i : Nat) : Nat :=
  if (i + 1) % 2 = 1 then ((i + 1) % 4 + 1) / 2 else (i + 1) % 2

/-- Channel sum for the 2-byte-per-pixel layouts: inner loop walks
`i < 2*width` and classifies with the layout's `chanOf`. -/
def chromaChanSum (chanOf : Nat → Nat) (buf : List Nat) (w h stride c : Nat) : ℚ :=
  ∑ y ∈ Finset.range h,
    ∑ i ∈ (Finset.range (2 * w)).filter (fun i => chanOf i = c),
      (buf.getD (y * stride + i) 0 : ℚ)

/-- Divisors of the 2-byte layouts (lines 564-566, 582-584): channel 0 by
`width * height`, channels 1 and 2 by `width / 2 * height` (C unsigned
integer division). -/
def chromaDiv (w h c : Nat) : ℚ :=
  if c = 0 then ((w * h : Nat) : ℚ) else ((w / 2 * h : Nat) : ℚ)

/-- YCBYCR channel average. -/
def ycbycrAvg (buf : List Nat) (w h stride c : Nat) : ℚ :=
  chromaChanSum ycbycrChan buf w h stride c / chromaDiv w h c

/-- CBYCRY channel average. -/
def cbycryAvg (buf : List Nat) (w h stride c : Nat) : ℚ :=
  chromaChanSum cbycryChan buf w h stride c / chromaDiv w h c

/-- The statistics switch (lines 514-593): the ordered triple of channel
averages for a supported layout, `none` for the default case (which prints
a diagnostic and returns without touching the accumulators). -/
def computeStats (b : CamBuf) : Option (ℚ × ℚ × ℚ) :=
  let w := (decodeDims b).1
  let h := (decodeDims b).2.1
  let s := (decodeDims b).2.2
  match b.frametype with
  | .rgb8888 => some (rgbAvg b.framebuf w h s 0, rgbAvg b.framebuf w h s 1, rgbAvg b.framebuf w h s 2)
  | .bgr8888 => some (bgrAvg b.framebuf w h s 0, bgrAvg b.framebuf w h s 1, bgrAvg b.framebuf w h s 2)
  | .ycbycr  => some (ycbycrAvg b.framebuf w h s 0, ycbycrAvg b.framebuf w h s 1, ycbycrAvg b.framebuf w h s 2)
  | .cbycry  => some (cbycryAvg b.framebuf w h s 0, cbycryAvg b.framebuf w h s 1, cbycryAvg b.framebuf w h s 2)
  | .other _ => none

/-! ### Encode-and-stream sink (lines 489-510) -/

/-- The streaming gate (line 490): frametype is exactly
`CAMERA_FRAMETYPE_RGB8888` and the decoded width and height are nonzero. -/
def streamGate (b : CamBuf) : Bool :=
  decide (b.frametype = Frametype.rgb8888 ∧ 0 < (decodeDims b).1 ∧ 0 < (decodeDims b).2.1)

/-- The tightly packed 3-byte-per-pixel buffer built by the copy loop
(lines 493-499), as a function of the output byte index: output byte `j`
decomposes as `j = (y*width + x)*3 + c` and holds
`framebuf[y*stride + x*4 + c]`. -/
def packRGB (buf : List Nat) (w stride : Nat) (j : Nat) : Nat :=
  buf.getD (j / 3 / w * stride + j / 3 % w * 4 + j % 3) 0

/-- Little-endian byte image of `n` in `k` bytes — the memory image of the
`unsigned long jpeg_size` (8 bytes, little-endian on the LP64 targets this
program builds for) that `send(sock, &jpeg_size, sizeof(unsigned long), 0)`
puts on the wire. -/
def natLE : Nat → Nat → List Nat
  | 0, _ => []
  | k + 1, n => n % 256 :: natLE k (n / 256)

/-- Value of a little-endian byte string. -/
def fromLE : List Nat → Nat
  | [] => 0
  | b :: rest => b + 256 * fromLE rest

/-- The two transport writes per encoded frame (lines 505-506): the 8-byte
binary size, then the compressed bytes. -/
def streamWrites (jpeg : List Nat) : List (List Nat) :=
  [natLE 8 jpeg.length, jpeg]

/-! ### Ingestion orchestrator -/

/-- All shared state `processCameraData` touches. -/
structure Globals where
  store : StoreState
  latest : LatestState
  metadata : Metadata

/-- Per-callback externally observable effects: whether the ring-slot
`shm_open(O_CREAT)` created/opened a segment, the statistics triple (if
any), and the transport writes performed. -/
structure Effects where
  ringSegCreated : Bool
  statsComputed : Option (ℚ × ℚ × ℚ)
  sends : List (List Nat)

/-- One invocation of `processCameraData` (lines 347-604): ring-buffer push,
latest-slot publication, unconditional metadata overwrite, the gated
encode-and-stream step (`jpeg` stands for the codec's output for this frame;
allocation or codec failure simply drops the two writes), and the statistics
switch.  `fRing` and `fLatest` inject shared-memory failures into the two
publication steps. -/
def processCameraData (g : Globals) (b : CamBuf) (jpeg : List Nat)
    (fRing fLatest : ShmFail) : Globals × Effects :=
  ({ store := processPush g.store b fRing
     latest := publishLatest g.latest b fLatest
     metadata := updateMetadata b },
   { ringSegCreated := !fRing.openFails
     statsComputed := computeStats b
     sends := if streamGate b then streamWrites jpeg else [] })

/-! ### Concrete fixtures -/

/-- The spec's decoder-correctness test frame: packed 4-byte layout,
width 2, height 1, stride 8, bytes `[10,20,30,99, 40,50,60,99]`. -/
def testRGB : CamBuf := ⟨.rgb8888, 2, 1, 8, [10, 20, 30, 99, 40, 50, 60, 99]⟩

/-- The spec's chroma-layout test frame shape `[Y0,C0,Y1,C1]`. -/
def testY : CamBuf := ⟨.ycbycr, 2, 1, 4, [100, 30, 200, 60]⟩

/-- The same samples in the CBYCRY ordering `[C0,Y0,C1,Y1]`. -/
def testC : CamBuf := ⟨.cbycry, 2, 1, 4, [30, 100, 60, 200]⟩

/-- A minimal supported frame (1×1 RGB8888). -/
def bufRGB : CamBuf := ⟨.rgb8888, 1, 1, 4, [1, 2, 3, 4]⟩

/-- A full ring-buffer state (count = MAX_FRAMES). -/
def fullStore : StoreState := ⟨fun _ => dfltRec, 0, 5⟩

/-- Injected `shm_open` failure. -/
def failOpen : ShmFail := ⟨true, false, false⟩

/-- Injected `ftruncate` failure. -/
def failTrunc : ShmFail := ⟨false, true, false⟩

/-- A latest-slot state with a live publication of one byte `[7]`. -/
def lat0 : LatestState := ⟨some [7], .good, 1⟩

/-- Globals with a non-trivial metadata record. -/
def g0 : Globals := ⟨initStore, initLatest, ⟨.rgb8888, 7, 7, 196⟩⟩

/-- A frame with an unrecognized layout tag. -/
def bUnsup : CamBuf := ⟨.other 42, 3, 3, 12, [1, 2, 3]⟩

/-- Six distinct 1×1 RGB8888 frames, one more than the ring capacity. -/
def sixBufs : List CamBuf :=
  [⟨.rgb8888, 1, 1, 4, [1, 1, 1, 1]⟩, ⟨.rgb8888, 1, 1, 4, [2, 2, 2, 2]⟩,
   ⟨.rgb8888, 1, 1, 4, [3, 3, 3, 3]⟩, ⟨.rgb8888, 1, 1, 4, [4, 4, 4, 4]⟩,
   ⟨.rgb8888, 1, 1, 4, [5, 5, 5, 5]⟩, ⟨.rgb8888, 1, 1, 4, [6, 6, 6, 6]⟩]

/-- A descriptor whose pixel count makes `(size_t)w * h * 4` wrap to 0. -/
def bHuge : CamBuf := ⟨.rgb8888, 2 ^ 31, 2 ^ 31, 0, []⟩

/-! ### Index-arithmetic helper lemmas for the statistics loops -/

/-- The YCBYCR classifier sends even bytes to channel 0, bytes ≡ 1 (mod 4)
to channel 1 (Cb) and bytes ≡ 3 (mod 4) to channel 2 (Cr). -/
lemma ycbycrChan_eq_iff (i c : Nat) :
    ycbycrChan i = c ↔ (c = 0 ∧ i % 2 = 0) ∨ (c = 1 ∧ i % 4 = 1) ∨ (c = 2 ∧ i % 4 = 3) := by
  unfold ycbycrChan
  by_cases h : i % 2 = 1
  · rw [if_pos h]
    have h4 : i % 4 = 1 ∨ i % 4 = 3 := by omega
    rcases h4 with h4 | h4
    · have e : (i - 1) % 4 = 0 := by omega
      rw [e]; omega
    · have e : (i - 1) % 4 = 2 := by omega
      rw [e]; omega
  · rw [if_neg h]; omega

/-- The CBYCRY classifier sends odd bytes to channel 0, bytes ≡ 0 (mod 4)
to channel 1 (Cb) and bytes ≡ 2 (mod 4) to channel 2 (Cr). -/
lemma cbycryChan_eq_iff (i c : Nat) :
    cbycryChan i = c ↔ (c = 0 ∧ i % 2 = 1) ∨ (c = 1 ∧ i % 4 = 0) ∨ (c = 2 ∧ i % 4 = 2) := by
  unfold cbycryChan
  by_cases h : (i + 1) % 2 = 1
  · rw [if_pos h]
    have h4 : i % 4 = 0 ∨ i % 4 = 2 := by omega
    rcases h4 with h4 | h4
    · have e : (i + 1) % 4 = 1 := by omega
      rw [e]; omega
    · have e : (i + 1) % 4 = 3 := by omega
      rw [e]; omega
  · rw [if_neg h]; omega

/-- Bytes below `4*w` congruent to `r` (mod 4) are exactly the bytes at
per-pixel offset `r` of the `w` pixels. -/
lemma filter4_image (w r : Nat) (hr : r < 4) :
    (Finset.range (4 * w)).filter (fun i => i % 4 = r) =
      (Finset.range w).image (fun x => 4 * x + r) := by
  ext i
  simp only [Finset.mem_filter, Finset.mem_range, Finset.mem_image]
  constructor
  · rintro ⟨hi, hm⟩
    exact ⟨i / 4, by omega, by omega⟩
  · rintro ⟨p, hp, rfl⟩
    omega

/-- The BGR8888 classifier assigns channel `c` exactly the bytes at
per-pixel offset `2 - c` (the mirrored offset). -/
lemma filter_bgr_image (w c : Nat) (hc : c < 3) :
    (Finset.range (4 * w)).filter (fun i => i % 4 ≠ 3 ∧ (4 * w - i + 3) % 4 - 1 = c) =
      (Finset.range w).image (fun x => 4 * x + (2 - c)) := by
  ext i
  simp only [Finset.mem_filter, Finset.mem_range, Finset.mem_image]
  constructor
  · rintro ⟨hi, hne, hch⟩
    exact ⟨i / 4, by omega, by omega⟩
  · rintro ⟨p, hp, rfl⟩
    refine ⟨by omega, by omega, by omega⟩

/-- Sample positions of each YCBYCR channel within one row. -/
lemma filter_ycbycr (w c : Nat) :
    (Finset.range (2 * w)).filter (fun i => ycbycrChan i = c) =
      if c = 0 then (Finset.range w).image (fun x => 2 * x)
      else if c = 1 then (Finset.range ((w + 1) / 2)).image (fun p => 4 * p + 1)
      else if c = 2 then (Finset.range (w / 2)).image (fun p => 4 * p + 3)
      else ∅ := by
  split_ifs with h0 h1 h2
  all_goals
    ext i
    simp only [Finset.mem_filter, Finset.mem_range, Finset.mem_image, ycbycrChan_eq_iff,
      Finset.not_mem_empty, iff_false, not_and]
  · subst h0
    constructor
    · rintro ⟨hi, hc⟩
      exact ⟨i / 2, by omega, by omega⟩
    · rintro ⟨p, hp, rfl⟩
      exact ⟨by omega, by omega⟩
  · subst h1
    constructor
    · rintro ⟨hi, hc⟩
      exact ⟨i / 4, by omega, by omega⟩
    · rintro ⟨p, hp, rfl⟩
      exact ⟨by omega, by omega⟩
  · subst h2
    constructor
    · rintro ⟨hi, hc⟩
      exact ⟨i / 4, by omega, by omega⟩
    · rintro ⟨p, hp, rfl⟩
      exact ⟨by omega, by omega⟩
  · rintro hi
    omega

/-- Sample positions of each CBYCRY channel within one row. -/
lemma filter_cbycry (w c : Nat) :
    (Finset.range (2 * w)).filter (fun i => cbycryChan i = c) =
      if c = 0 then (Finset.range w).image (fun x => 2 * x + 1)
      else if c = 1 then (Finset.range ((w + 1) / 2)).image (fun p => 4 * p)
      else if c = 2 then (Finset.range (w / 2)).image (fun p => 4 * p + 2)
      else ∅ := by
  split_ifs with h0 h1 h2
  all_goals
    ext i
    simp only [Finset.mem_filter, Finset.mem_range, Finset.mem_image, cbycryChan_eq_iff,
      Finset.not_mem_empty, iff_false, not_and]
  · subst h0
    constructor
    · rintro ⟨hi, hc⟩
      exact ⟨i / 2, by omega, by omega⟩
    · rintro ⟨p, hp, rfl⟩
      exact ⟨by omega, by omega⟩
  · subst h1
    constructor
    · rintro ⟨hi, hc⟩
      exact ⟨i / 4, by omega, by omega⟩
    · rintro ⟨p, hp, rfl⟩
      exact ⟨by omega, by omega⟩
  · subst h2
    constructor
    · rintro ⟨hi, hc⟩
      exact ⟨i / 4, by omega, by omega⟩
    · rintro ⟨p, hp, rfl⟩
      exact ⟨by omega, by omega⟩
  · rintro hi
    omega

/-! ### Claim theorems: statistics -/

/-- C4: for every frame in a packed 4-byte layout (both byte-order
variants), each channel average is the arithmetic mean of the bytes at that
channel's per-pixel offset in {0,1,2} — mirrored offsets `2 - c` for the
reverse-order BGR8888 variant — skipping the 4th byte of each pixel,
locating row starts by the row stride, with divisor `width * height`; and
on the spec's concrete test frame (width 2, height 1, stride 8, bytes
`[10,20,30,99, 40,50,60,99]`) the channel averages are `(25, 35, 45)`. -/
theorem c4_packed_layout_stats (buf : List Nat) (w h stride c : Nat) (hc : c < 3) :
    rgbAvg buf w h stride c =
      (∑ y ∈ Finset.range h, ∑ x ∈ Finset.range w,
        (buf.getD (y * stride + 4 * x + c) 0 : ℚ)) / ((w * h : Nat) : ℚ) ∧
    bgrAvg buf w h stride c =
      (∑ y ∈ Finset.range h, ∑ x ∈ Finset.range w,
        (buf.getD (y * stride + 4 * x + (2 - c)) 0 : ℚ)) / ((w * h : Nat) : ℚ) ∧
    computeStats testRGB = some (25, 35, 45) := by
  refine ⟨?_, ?_, ?_⟩
  · unfold rgbAvg rgbChanSum
    congr 1
    refine Finset.sum_congr rfl fun y _ => ?_
    rw [filter4_image w c (by omega), Finset.sum_image (fun a _ b _ hab => by omega)]
    refine Finset.sum_congr rfl fun x _ => ?_
    have e : y * stride + (4 * x + c) = y * stride + 4 * x + c := by omega
    rw [e]
  · unfold bgrAvg bgrChanSum
    congr 1
    refine Finset.sum_congr rfl fun y _ => ?_
    rw [filter_bgr_image w c hc, Finset.sum_image (fun a _ b _ hab => by omega)]
    refine Finset.sum_congr rfl fun x _ => ?_
    have e : y * stride + (4 * x + (2 - c)) = y * stride + 4 * x + (2 - c) := by omega
    rw [e]
  · simp [computeStats, decodeDims, rgbAvg, rgbChanSum, testRGB, Finset.sum_filter,
      Finset.sum_range_succ]
    norm_num

/-- Witness for C4 at the spec's concrete decoder-correctness input. -/
theorem c4_witness : computeStats testRGB = some (25, 35, 45) :=
  (c4_packed_layout_stats testRGB.framebuf 2 1 8 0 (by omega)).2.2

/-- C5: for both 2-byte-per-pixel chroma-subsampled layouts, the first
(luma) channel average sums one sample per pixel and divides by
`width * height`, while each chroma channel average sums its half-rate
interleaved samples (positions `4p+1` / `4p+3` for YCBYCR, `4p` / `4p+2`
for CBYCRY, per the layout's native byte ordering) and divides by
`width / 2 * height`; on the spec's `[Y0,C0,Y1,C1]`-shaped test frames the
luma average uses divisor 2 and each chroma average uses divisor 1. -/
theorem c5_chroma_layout_stats (buf : List Nat) (w h stride : Nat) :
    (ycbycrAvg buf w h stride 0 =
      (∑ y ∈ Finset.range h, ∑ x ∈ Finset.range w,
        (buf.getD (y * stride + 2 * x) 0 : ℚ)) / ((w * h : Nat) : ℚ)) ∧
    (ycbycrAvg buf w h stride 1 =
      (∑ y ∈ Finset.range h, ∑ p ∈ Finset.range ((w + 1) / 2),
        (buf.getD (y * stride + (4 * p + 1)) 0 : ℚ)) / ((w / 2 * h : Nat) : ℚ)) ∧
    (ycbycrAvg buf w h stride 2 =
      (∑ y ∈ Finset.range h, ∑ p ∈ Finset.range (w / 2),
        (buf.getD (y * stride + (4 * p + 3)) 0 : ℚ)) / ((w / 2 * h : Nat) : ℚ)) ∧
    (cbycryAvg buf w h stride 0 =
      (∑ y ∈ Finset.range h, ∑ x ∈ Finset.range w,
        (buf.getD (y * stride + (2 * x + 1)) 0 : ℚ)) / ((w * h : Nat) : ℚ)) ∧
    (cbycryAvg buf w h stride 1 =
      (∑ y ∈ Finset.range h, ∑ p ∈ Finset.range ((w + 1) / 2),
        (buf.getD (y * stride + 4 * p) 0 : ℚ)) / ((w / 2 * h : Nat) : ℚ)) ∧
    (cbycryAvg buf w h stride 2 =
      (∑ y ∈ Finset.range h, ∑ p ∈ Finset.range (w / 2),
        (buf.getD (y * stride + (4 * p + 2)) 0 : ℚ)) / ((w / 2 * h : Nat) : ℚ)) ∧
    computeStats testY = some (150, 30, 60) ∧
    computeStats testC = some (150, 30, 60) := by
  refine ⟨?_, ?_, ?_, ?_, ?_, ?_, ?_, ?_⟩
  · unfold ycbycrAvg chromaChanSum chromaDiv
    rw [if_pos rfl]
    congr 1
    refine Finset.sum_congr rfl fun y _ => ?_
    rw [filter_ycbycr w 0, if_pos rfl, Finset.sum_image (fun a _ b _ hab => by omega)]
  · unfold ycbycrAvg chromaChanSum chromaDiv
    rw [if_neg (by omega)]
    congr 1
    refine Finset.sum_congr rfl fun y _ => ?_
    rw [filter_ycbycr w 1, if_neg (by omega), if_pos rfl,
      Finset.sum_image (fun a _ b _ hab => by omega)]
  · unfold ycbycrAvg chromaChanSum chromaDiv
    rw [if_neg (by omega)]
    congr 1
    refine Finset.sum_congr rfl fun y _ => ?_
    rw [filter_ycbycr w 2, if_neg (by omega), if_neg (by omega), if_pos rfl,
      Finset.sum_image (fun a _ b _ hab => by omega)]
  · unfold cbycryAvg chromaChanSum chromaDiv
    rw [if_pos rfl]
    congr 1
    refine Finset.sum_congr rfl fun y _ => ?_
    rw [filter_cbycry w 0, if_pos rfl, Finset.sum_image (fun a _ b _ hab => by omega)]
  · unfold cbycryAvg chromaChanSum chromaDiv
    rw [if_neg (by omega)]
    congr 1
    refine Finset.sum_congr rfl fun y _ => ?_
    rw [filter_cbycry w 1, if_neg (by omega), if_pos rfl,
      Finset.sum_image (fun a _ b _ hab => by omega)]
  · unfold cbycryAvg chromaChanSum chromaDiv
    rw [if_neg (by omega)]
    congr 1
    refine Finset.sum_congr rfl fun y _ => ?_
    rw [filter_cbycry w 2, if_neg (by omega), if_neg (by omega), if_pos rfl,
      Finset.sum_image (fun a _ b _ hab => by omega)]
  · simp [computeStats, decodeDims, ycbycrAvg, chromaChanSum, chromaDiv, ycbycrChan, testY,
      Finset.sum_filter, Finset.sum_range_succ]
    norm_num
  · simp [computeStats, decodeDims, cbycryAvg, chromaChanSum, chromaDiv, cbycryChan, testC,
      Finset.sum_filter, Finset.sum_range_succ]
    norm_num

/-! ### Ring-buffer helper lemmas -/

/-- Appending on the right leaves earlier `getD` reads unchanged. -/
lemma getD_append_lt {α : Type} (l l2 : List α) (d : α) (n : Nat) (h : n < l.length) :
    (l ++ l2).getD n d = l.getD n d := by
  induction l generalizing n with
  | nil => simp at h
  | cons a t ih =>
    cases n with
    | zero => rfl
    | succ m =>
      simp only [List.cons_append, List.getD_cons_succ]
      exact ih m (by simp only [List.length_cons] at h; omega)

/-- Reading a just-appended element. -/
lemma getD_append_len {α : Type} (l : List α) (a : α) (d : α) :
    (l ++ [a]).getD l.length d = a := by
  induction l with
  | nil => rfl
  | cons x t ih =>
    simp only [List.cons_append, List.length_cons, List.getD_cons_succ]
    exact ih

/-- Two ring indices coincide exactly when the raw indices agree mod 5. -/
lemma idx5_eq_iff (a b : Nat) : idx5 a = idx5 b ↔ a % 5 = b % 5 := by
  unfold idx5
  constructor
  · intro h
    exact congrArg Fin.val h
  · intro h
    exact Fin.ext h

/-- Head of the store after the eviction block. -/
lemma evict_head (st : StoreState) :
    (evictIfFull st).head = if st.count = 5 then (st.head + 1) % 5 else st.head := by
  unfold evictIfFull; split <;> rfl

/-- Count of the store after the eviction block. -/
lemma evict_count (st : StoreState) :
    (evictIfFull st).count = if st.count = 5 then st.count - 1 else st.count := by
  unfold evictIfFull; split <;> rfl

/-- The eviction block never rewrites slot contents. -/
lemma evict_buf (st : StoreState) : (evictIfFull st).buf = st.buf := by
  unfold evictIfFull; split <;> rfl

/-- Head after a fully successful push. -/
lemma push_head (st : StoreState) (b : CamBuf) (hb : get_frame_size b ≠ 0) :
    (processPush st b noFail).head = (evictIfFull st).head := by
  unfold processPush
  simp [noFail, hb]

/-- Count after a fully successful push. -/
lemma push_count (st : StoreState) (b : CamBuf) (hb : get_frame_size b ≠ 0) :
    (processPush st b noFail).count = (evictIfFull st).count + 1 := by
  unfold processPush
  simp [noFail, hb]

/-- Slot contents after a fully successful push. -/
lemma push_buf (st : StoreState) (b : CamBuf) (hb : get_frame_size b ≠ 0) :
    (processPush st b noFail).buf =
      Function.update (evictIfFull st).buf
        (idx5 ((evictIfFull st).head + (evictIfFull st).count)) (recOf b) := by
  unfold processPush
  simp [noFail, hb]

/-- Main ring-buffer invariant: after any sequence of successful pushes the
head stays in range, the count is `min N 5`, and the live window (read from
`head` in ring order) holds exactly the most recent pushes in push order. -/
lemma pushAll_spec (fs : List CamBuf) (hok : ∀ b ∈ fs, get_frame_size b ≠ 0) :
    (pushAll fs).head < 5 ∧ (pushAll fs).count = min fs.length 5 ∧
      ∀ j, j < (pushAll fs).count →
        (pushAll fs).buf (idx5 ((pushAll fs).head + j)) =
          recOf (fs.getD (fs.length - (pushAll fs).count + j) dfltBuf) := by
  induction fs using List.reverseRecOn with
  | nil =>
    refine ⟨by decide, by decide, ?_⟩
    intro j hj
    simp [pushAll, initStore] at hj
  | append_singleton l b ih =>
    have hok' : ∀ x ∈ l, get_frame_size x ≠ 0 := fun x hx => hok x (by simp [hx])
    have hb : get_frame_size b ≠ 0 := hok b (by simp)
    obtain ⟨h5, hcnt, hwin⟩ := ih hok'
    have hfold : pushAll (l ++ [b]) = processPush (pushAll l) b noFail := by
      simp [pushAll, List.foldl_append]
    set st := pushAll l with hst
    rw [hfold, push_head st b hb, push_count st b hb, push_buf st b hb,
      evict_head, evict_count, evict_buf]
    have hlen : (l ++ [b]).length = l.length + 1 := by simp
    by_cases hfull : st.count = 5
    · rw [if_pos hfull, if_pos hfull]
      have hl5 : 5 ≤ l.length := by omega
      refine ⟨by omega, by rw [hlen]; omega, ?_⟩
      intro j hj
      by_cases hj4 : j = 4
      · subst hj4
        have hidx : idx5 ((st.head + 1) % 5 + 4) =
            idx5 ((st.head + 1) % 5 + (st.count - 1)) := by
          rw [idx5_eq_iff]; omega
        rw [hidx, Function.update_same]
        have e : (l ++ [b]).length - (st.count - 1 + 1) + 4 = l.length := by
          rw [hlen]; omega
        rw [e, getD_append_len]
      · have hne : idx5 ((st.head + 1) % 5 + j) ≠
            idx5 ((st.head + 1) % 5 + (st.count - 1)) := by
          rw [Ne, idx5_eq_iff]
          omega
        rw [Function.update_noteq hne]
        have hj1 : j + 1 < st.count := by omega
        have hidx2 : idx5 ((st.head + 1) % 5 + j) = idx5 (st.head + (j + 1)) := by
          rw [idx5_eq_iff]; omega
        rw [hidx2, hwin (j + 1) hj1]
        congr 1
        have e : (l ++ [b]).length - (st.count - 1 + 1) + j =
            l.length - st.count + (j + 1) := by
          rw [hlen]; omega
        rw [e]
        exact (getD_append_lt l [b] dfltBuf _ (by omega)).symm
    · rw [if_neg hfull, if_neg hfull]
      have hllt : l.length < 5 := by omega
      have hceq : st.count = l.length := by omega
      refine ⟨h5, by rw [hlen]; omega, ?_⟩
      intro j hj
      by_cases hjc : j = st.count
      · subst hjc
        rw [Function.update_same]
        have e : (l ++ [b]).length - (st.count + 1) + st.count = l.length := by
          rw [hlen]; omega
        rw [e, getD_append_len]
      · have hne : idx5 (st.head + j) ≠ idx5 (st.head + st.count) := by
          rw [Ne, idx5_eq_iff]
          omega
        rw [Function.update_noteq hne]
        have hjlt : j < st.count := by omega
        rw [hwin j hjlt]
        congr 1
        have e : (l ++ [b]).length - (st.count + 1) + j = l.length - st.count + j := by
          rw [hlen]; omega
        rw [e]
        exact (getD_append_lt l [b] dfltBuf _ (by omega)).symm

/-- A push into a non-full store neither moves the head nor disturbs any
live slot. -/
lemma push_not_full (st : StoreState) (b : CamBuf) (f : ShmFail) (hlt : st.count < 5) :
    (processPush st b f).head = st.head ∧
      ∀ j, j < st.count →
        (processPush st b f).buf (idx5 (st.head + j)) = st.buf (idx5 (st.head + j)) := by
  have hev : evictIfFull st = st := by
    unfold evictIfFull; rw [if_neg (by omega)]
  unfold processPush
  rw [hev]
  dsimp only
  split_ifs
  · exact ⟨rfl, fun j hj => rfl⟩
  · exact ⟨rfl, fun j hj => rfl⟩
  · exact ⟨rfl, fun j hj => rfl⟩
  · refine ⟨rfl, fun j hj => ?_⟩
    have hne : idx5 (st.head + j) ≠ idx5 (st.head + st.count) := by
      rw [Ne, idx5_eq_iff]
      omega
    exact Function.update_noteq hne _ _

/-- A push either keeps the post-eviction count or increments it by one. -/
lemma push_count_cases (st : StoreState) (b : CamBuf) (f : ShmFail) :
    (processPush st b f).count = (evictIfFull st).count ∨
      (processPush st b f).count = (evictIfFull st).count + 1 := by
  unfold processPush
  dsimp only
  split_ifs
  · exact Or.inl rfl
  · exact Or.inl rfl
  · exact Or.inl rfl
  · exact Or.inr rfl

/-- The capacity bound `count ≤ 5` is preserved by every push. -/
lemma push_count_le (st : StoreState) (b : CamBuf) (f : ShmFail) (h : st.count ≤ 5) :
    (processPush st b f).count ≤ 5 := by
  rcases push_count_cases st b f with e | e <;> rw [e, evict_count] <;> split_ifs <;> omega

/-- Contents of `/camera_latest` after truncating a fresh segment. -/
lemma truncTo_nil (n : Nat) : truncTo [] n = List.replicate n 0 := by
  induction n with
  | zero => rfl
  | succ m ih =>
    unfold truncTo at ih ⊢
    rw [List.range_succ, List.map_append, ih, List.replicate_succ']
    rfl

/-- Byte length of the little-endian image. -/
lemma natLE_length (k n : Nat) : (natLE k n).length = k := by
  induction k generalizing n with
  | zero => rfl
  | succ m ih => simp [natLE, ih]

/-- The `k`-byte little-endian image decodes to `n % 256 ^ k`. -/
lemma fromLE_natLE (k n : Nat) : fromLE (natLE k n) = n % 256 ^ k := by
  induction k generalizing n with
  | zero => simp [natLE, fromLE, Nat.mod_one]
  | succ m ih =>
    calc fromLE (natLE (m + 1) n) = n % 256 + 256 * fromLE (natLE m (n / 256)) := rfl
      _ = n % 256 + 256 * (n / 256 % 256 ^ m) := by rw [ih]
      _ = n % (256 * 256 ^ m) := Nat.mod_mul.symm
      _ = n % 256 ^ (m + 1) := by rw [pow_succ, Nat.mul_comm]

/-! ### Claim theorems: frame store, publication, metadata, streaming -/

/-- C1 counterexample: with a full store (count = 5 = MAX_FRAMES), a push
whose `shm_open` fails leaves head = 1 and count = 4, not the pre-call
values 0 and 5 — the eviction at lines 360-367 happens before any
allocation is attempted. -/
theorem c1_push_counterexample :
    (failOpen.openFails = true ∨ failOpen.truncFails = true ∨ failOpen.mmapFails = true) ∧
    ¬ ((processPush fullStore bufRGB failOpen).head = fullStore.head ∧
       (processPush fullStore bufRGB failOpen).count = fullStore.count) := by
  refine ⟨Or.inl rfl, ?_⟩
  decide

/-- C1 (amended): on any open/truncate/map failure mid-push no partial
Frame is left live (the slot array is untouched and the count never grows);
head and count are unchanged when the store was not full at entry, but when
it was full the oldest frame has already been evicted, so the head has
advanced by one and the count has dropped from 5 to 4. -/
theorem c1_push_failure_atomicity (st : StoreState) (b : CamBuf) (f : ShmFail)
    (hf : f.openFails = true ∨ f.truncFails = true ∨ f.mmapFails = true) :
    (processPush st b f).buf = st.buf ∧
    (processPush st b f).count ≤ st.count ∧
    (st.count ≠ 5 → (processPush st b f).head = st.head ∧
      (processPush st b f).count = st.count) ∧
    (st.count = 5 → (processPush st b f).head = (st.head + 1) % 5 ∧
      (processPush st b f).count = 4) := by
  have he : processPush st b f = evictIfFull st := by
    unfold processPush
    dsimp only
    rcases hf with h | h | h
    · rw [if_pos h]
    · by_cases ho : f.openFails = true
      · rw [if_pos ho]
      · rw [if_neg ho, if_pos h]
    · by_cases ho : f.openFails = true
      · rw [if_pos ho]
      · by_cases ht : f.truncFails = true
        · rw [if_neg ho, if_pos ht]
        · rw [if_neg ho, if_neg ht, if_pos (Or.inl h)]
  refine ⟨by rw [he, evict_buf], ?_, ?_, ?_⟩
  · rw [he, evict_count]
    split_ifs <;> omega
  · intro h5
    rw [he, evict_head, evict_count, if_neg h5, if_neg h5]
    exact ⟨rfl, rfl⟩
  · intro h5
    rw [he, evict_head, evict_count, if_pos h5, if_pos h5]
    exact ⟨rfl, by omega⟩

/-- Witness for C1 (amended) at a concrete failing push. -/
theorem c1_witness :
    (failOpen.openFails = true ∨ failOpen.truncFails = true ∨ failOpen.mmapFails = true) ∧
    (processPush initStore bufRGB failOpen).buf = initStore.buf :=
  ⟨Or.inl rfl, (c1_push_failure_atomicity initStore bufRGB failOpen (Or.inl rfl)).1⟩

/-- C2 counterexample: a frame with an unrecognized layout tag still has
its ring `shm_open(O_CREAT)` performed and still overwrites the Metadata
Record (with the unsupported tag and zeroed dimensions), so the record is
altered. -/
theorem c2_unsupported_layout_counterexample :
    get_frame_size bUnsup = 0 ∧
    (processCameraData g0 bUnsup [] noFail noFail).1.metadata ≠ g0.metadata ∧
    (processCameraData g0 bUnsup [] noFail noFail).2.ringSegCreated = true := by
  refine ⟨by decide, by decide, by decide⟩

/-- C2 (amended): for every frame with an unrecognized layout tag the
computed byte-size is 0, no statistics are computed and no stream write is
attempted; but the push and publication steps still run — a ring segment is
still created whenever `shm_open` succeeds (the frame itself is never
recorded, because a zero-length map fails, though a full ring still loses
its oldest frame to the eviction step) — and the Metadata Record is
overwritten with the unsupported tag, width 0, height 0 and size 0. -/
theorem c2_unsupported_layout (g : Globals) (b : CamBuf) (jpeg : List Nat)
    (f1 f2 : ShmFail) (t : Nat) (hb : b.frametype = Frametype.other t) :
    get_frame_size b = 0 ∧
    (processCameraData g b jpeg f1 f2).2.statsComputed = none ∧
    (processCameraData g b jpeg f1 f2).2.sends = [] ∧
    (processCameraData g b jpeg f1 f2).1.metadata = ⟨Frametype.other t, 0, 0, 0⟩ ∧
    (processCameraData g b jpeg f1 f2).1.store.buf = g.store.buf ∧
    (processCameraData g b jpeg f1 f2).1.store.head = (evictIfFull g.store).head ∧
    (processCameraData g b jpeg f1 f2).1.store.count = (evictIfFull g.store).count ∧
    (f1.openFails = false → (processCameraData g b jpeg f1 f2).2.ringSegCreated = true) := by
  have hsz : get_frame_size b = 0 := by simp [get_frame_size, hb]
  have hpush : processPush g.store b f1 = evictIfFull g.store := by
    unfold processPush
    dsimp only
    split_ifs with h1 h2 h3
    · rfl
    · rfl
    · rfl
    · exact absurd (Or.inr hsz) h3
  have hgate : streamGate b = false := by
    simp [streamGate, hb]
  unfold processCameraData
  dsimp only
  refine ⟨hsz, ?_, ?_, ?_, ?_, ?_, ?_, ?_⟩
  · simp [computeStats, hb]
  · rw [hgate]
    simp
  · simp [updateMetadata, decodeWH, hb, hsz]
  · rw [hpush, evict_buf]
  · rw [hpush]
  · rw [hpush]
  · intro h1
    simp [h1]

/-- Witness for C2 (amended) at the concrete unsupported frame. -/
theorem c2_witness :
    bUnsup.frametype = Frametype.other 42 ∧ get_frame_size bUnsup = 0 :=
  ⟨rfl, (c2_unsupported_layout g0 bUnsup [] noFail noFail 42 rfl).1⟩

/-- C3: after N > 5 successful pushes the store holds exactly K = 5 frames,
and the live window read from the head in ring order is exactly the 5 most
recently pushed frames in push order; a push into a non-full store performs
no eviction (head and all live slots are untouched), and `count ≤ 5` is
preserved by every push. -/
theorem c3_ring_bound_fifo (fs : List CamBuf) (hN : 5 < fs.length)
    (hok : ∀ b ∈ fs, get_frame_size b ≠ 0) :
    (pushAll fs).count = 5 ∧
    (∀ j, j < 5 → (pushAll fs).buf (idx5 ((pushAll fs).head + j)) =
      recOf (fs.getD (fs.length - 5 + j) dfltBuf)) ∧
    (∀ (st : StoreState) (b : CamBuf) (f : ShmFail), st.count < 5 →
      (processPush st b f).head = st.head ∧
        ∀ j, j < st.count →
          (processPush st b f).buf (idx5 (st.head + j)) = st.buf (idx5 (st.head + j))) ∧
    (∀ (st : StoreState) (b : CamBuf) (f : ShmFail), st.count ≤ 5 →
      (processPush st b f).count ≤ 5) := by
  obtain ⟨h5, hcnt, hwin⟩ := pushAll_spec fs hok
  have hc : (pushAll fs).count = 5 := by
    rw [hcnt]
    exact Nat.min_eq_right (by omega)
  refine ⟨hc, ?_, ?_, ?_⟩
  · intro j hj
    have hw := hwin j (by omega)
    rw [hc] at hw
    exact hw
  · intro st b f hlt
    exact push_not_full st b f hlt
  · intro st b f hle
    exact push_count_le st b f hle

/-- Witness for C3 after six successful pushes. -/
theorem c3_witness : (pushAll sixBufs).count = 5 :=
  (c3_ring_bound_fifo sixBufs (by decide) (by decide)).1

/-- C6 counterexample: a publish over a live previous publication whose
`ftruncate` fails leaves the slot neither holding the previous publication
(it was already unlinked) nor absent — a freshly created, contentless
segment remains. -/
theorem c6_latest_failure_counterexample :
    (failTrunc.openFails = true ∨ failTrunc.truncFails = true ∨ failTrunc.mmapFails = true) ∧
    (publishLatest lat0 bufRGB failTrunc).slot ≠ lat0.slot ∧
    (publishLatest lat0 bufRGB failTrunc).slot ≠ none := by
  refine ⟨Or.inr (Or.inl rfl), by decide, by decide⟩

/-- C6 (amended): when a publish over a live previous publication fails at
open, truncate or map, the previous publication is never left in place —
it is torn down unconditionally first — and the slot is left either absent
(open failure) or as a freshly created segment containing no published
frame bytes (empty after a truncate failure, zero-filled after a map
failure); the publish function is total, so ingestion never crashes. -/
theorem c6_latest_failure_policy (st : LatestState) (b : CamBuf) (f : ShmFail)
    (hf : f.openFails = true ∨ f.truncFails = true ∨ f.mmapFails = true)
    (hprev : st.ptr ≠ LatestPtr.null) :
    (publishLatest st b f).slot = none ∨
    (publishLatest st b f).slot = some [] ∨
    (publishLatest st b f).slot = some (List.replicate (get_frame_size b) 0) := by
  unfold publishLatest
  dsimp only
  rw [if_pos hprev]
  split_ifs with h1 h2 h3
  · exact Or.inl rfl
  · exact Or.inr (Or.inl rfl)
  · refine Or.inr (Or.inr ?_)
    show some (truncTo [] (get_frame_size b)) = some (List.replicate (get_frame_size b) 0)
    rw [truncTo_nil]
  · rcases hf with h | h | h
    · exact absurd h h1
    · exact absurd h h2
    · exact absurd (Or.inl h) h3

/-- Witness for C6 (amended) at a concrete failing publish. -/
theorem c6_witness :
    (publishLatest lat0 bufRGB failTrunc).slot = none ∨
    (publishLatest lat0 bufRGB failTrunc).slot = some [] ∨
    (publishLatest lat0 bufRGB failTrunc).slot = some (List.replicate (get_frame_size bufRGB) 0) :=
  c6_latest_failure_policy lat0 bufRGB failTrunc (Or.inr (Or.inl rfl)) (by decide)

/-- C7: `latest()` returns none exactly on the empty store and otherwise
the slot at `(head + count - 1) % 5`; after any successful push it returns
exactly the record (frametype, descriptor and copied bytes) of the frame
just pushed. -/
theorem c7_latest_query (st : StoreState) (b : CamBuf) :
    (st.count = 0 → get_latest_frame st = none) ∧
    (st.count ≠ 0 →
      get_latest_frame st = some (st.buf (idx5 (st.head + st.count - 1)))) ∧
    (get_frame_size b ≠ 0 →
      get_latest_frame (processPush st b noFail) = some (recOf b)) := by
  refine ⟨?_, ?_, ?_⟩
  · intro h
    unfold get_latest_frame
    rw [if_pos h]
  · intro h
    unfold get_latest_frame
    rw [if_neg h]
  · intro hb
    unfold get_latest_frame
    rw [push_count st b hb, push_head st b hb, push_buf st b hb]
    rw [if_neg (by omega)]
    have e : (evictIfFull st).head + ((evictIfFull st).count + 1) - 1 =
        (evictIfFull st).head + (evictIfFull st).count := by omega
    rw [e, Function.update_same]

/-- Witness for C7 after one concrete push. -/
theorem c7_witness :
    get_latest_frame (processPush initStore bufRGB noFail) = some (recOf bufRGB) :=
  (c7_latest_query initStore bufRGB).2.2 (by decide)

/-- C8 counterexample: `get_frame_size` computes in 64-bit `size_t`
arithmetic, so a 2^31 × 2^31 RGB8888 descriptor yields 0, not the
mathematical product `width * height * 4 = 2^64`. -/
theorem c8_size_counterexample :
    get_frame_size bHuge ≠ bHuge.width * bHuge.height * 4 := by decide

/-- C8 (amended): the byte-size is `width * height * 4 mod 2^64` for the
packed 4-byte layouts and `width * height * 2 mod 2^64` for the 2-byte
chroma-subsampled layouts — equal to the mathematical products whenever
they fit in 64 bits — and 0 for every other layout tag. -/
theorem c8_size_formulas (b : CamBuf) :
    ((b.frametype = Frametype.rgb8888 ∨ b.frametype = Frametype.bgr8888) →
      get_frame_size b = b.width * b.height * 4 % 2 ^ 64 ∧
      (b.width * b.height * 4 < 2 ^ 64 → get_frame_size b = b.width * b.height * 4)) ∧
    ((b.frametype = Frametype.ycbycr ∨ b.frametype = Frametype.cbycry) →
      get_frame_size b = b.width * b.height * 2 % 2 ^ 64 ∧
      (b.width * b.height * 2 < 2 ^ 64 → get_frame_size b = b.width * b.height * 2)) ∧
    (∀ t, b.frametype = Frametype.other t → get_frame_size b = 0) := by
  refine ⟨?_, ?_, ?_⟩
  · rintro (h | h) <;>
      exact ⟨by simp [get_frame_size, h],
        fun hlt => by
          norm_num at hlt
          simp [get_frame_size, h, Nat.mod_eq_of_lt hlt]⟩
  · rintro (h | h) <;>
      exact ⟨by simp [get_frame_size, h],
        fun hlt => by
          norm_num at hlt
          simp [get_frame_size, h, Nat.mod_eq_of_lt hlt]⟩
  · intro t h
    simp [get_frame_size, h]

/-- Witness for C8 (amended) at a small RGB8888 descriptor. -/
theorem c8_witness :
    get_frame_size bufRGB = bufRGB.width * bufRGB.height * 4 % 2 ^ 64 ∧
    get_frame_size bufRGB = bufRGB.width * bufRGB.height * 4 := by
  have h := (c8_size_formulas bufRGB).1 (Or.inl rfl)
  exact ⟨h.1, h.2 (by decide)⟩

/-- C9: each encoded frame is sent as exactly two transport writes — first
the 8-byte little-endian (the targets' native order) binary length whose
value is the compressed size, then exactly that many compressed bytes. -/
theorem c9_stream_framing (jpeg : List Nat) (h : jpeg.length < 2 ^ 64) :
    (streamWrites jpeg).length = 2 ∧
    (streamWrites jpeg).getD 0 [] = natLE 8 jpeg.length ∧
    ((streamWrites jpeg).getD 0 []).length = 8 ∧
    fromLE ((streamWrites jpeg).getD 0 []) = jpeg.length ∧
    (streamWrites jpeg).getD 1 [] = jpeg ∧
    ((streamWrites jpeg).getD 1 []).length = fromLE ((streamWrites jpeg).getD 0 []) := by
  have h256 : (256 : Nat) ^ 8 = 2 ^ 64 := by norm_num
  have hfl : fromLE (natLE 8 jpeg.length) = jpeg.length := by
    rw [fromLE_natLE, h256, Nat.mod_eq_of_lt h]
  exact ⟨rfl, rfl, natLE_length 8 _, hfl, rfl, hfl.symm⟩

/-- Witness for C9 on a 3-byte compressed payload. -/
theorem c9_witness :
    ([5, 6, 7] : List Nat).length < 2 ^ 64 ∧
    fromLE ((streamWrites [5, 6, 7]).getD 0 []) = 3 := by
  have h : ([5, 6, 7] : List Nat).length < 2 ^ 64 := by norm_num
  exact ⟨h, (c9_stream_framing [5, 6, 7] h).2.2.2.1⟩

/-- C10: the encode-and-stream path is gated exactly on
frametype = RGB8888 with nonzero decoded width and height (so BGR8888
frames are never streamed), and the tightly packed 3-byte buffer satisfies
`packed[(y*width + x)*3 + c] = framebuf[y*stride + x*4 + c]` for every row,
column and channel `c < 3`. -/
theorem c10_stream_gate_and_packing :
    (∀ b : CamBuf, streamGate b = true ↔
      (b.frametype = Frametype.rgb8888 ∧ 0 < b.width ∧ 0 < b.height)) ∧
    (∀ b : CamBuf, b.frametype = Frametype.bgr8888 → streamGate b = false) ∧
    (∀ (buf : List Nat) (w stride y x c : Nat), x < w → c < 3 →
      packRGB buf w stride ((y * w + x) * 3 + c) = buf.getD (y * stride + x * 4 + c) 0) := by
  refine ⟨?_, ?_, ?_⟩
  · intro b
    rcases b with ⟨ft, w, h, s, data⟩
    cases ft <;> simp [streamGate, decodeDims]
  · intro b hb
    rcases b with ⟨ft, w, h, s, d⟩
    cases ft <;> simp_all [streamGate, decodeDims]
  · intro buf w stride y x c hx hc
    have hw : 0 < w := by omega
    unfold packRGB
    have e1 : ((y * w + x) * 3 + c) / 3 = y * w + x := by
      generalize y * w + x = m
      omega
    have e2 : ((y * w + x) * 3 + c) % 3 = c := by
      generalize y * w + x = m
      omega
    have e3 : (y * w + x) / w = y := by
      rw [Nat.mul_comm y w, Nat.mul_add_div hw, Nat.div_eq_of_lt hx, Nat.add_zero]
    have e4 : (y * w + x) % w = x := by
      rw [Nat.mul_comm y w, Nat.mul_add_mod, Nat.mod_eq_of_lt hx]
    rw [e1, e2, e3, e4]

/-- Witness for C10 on the concrete test frame. -/
theorem c10_witness :
    streamGate testRGB = true ∧
    packRGB testRGB.framebuf 2 8 ((0 * 2 + 1) * 3 + 2) =
      testRGB.framebuf.getD (0 * 8 + 1 * 4 + 2) 0 := by
  refine ⟨?_, ?_⟩
  · exact (c10_stream_gate_and_packing.1 testRGB).mpr ⟨rfl, by decide, by decide⟩
  · exact c10_stream_gate_and_packing.2.2 testRGB.framebuf 2 8 0 1 2 (by omega) (by omega)

end Camera
